import Mathlib

/-!
Verification development for the WABT in-memory IR (`src/ir.h`).

The header `src/ir.h` declares the data model; several member-function
bodies live in `ir.cc`, which is not part of the sources at hand.  Those
operations are modelled from the specification (see the individual doc
comments starting with `Modelled from the spec:`); everything whose body
is inline in the header (`Catch::IsCatchAll`, `ScriptModule::GetLocation`,
the `FuncSignature`/`FuncDeclaration` accessors) is translated directly
from the source.

Modelling conventions, following the spec's own design notes (§9):
tagged C-style unions become inductive types; the intrusive `next`-linked
chains (`Expr::next`, `ModuleField::next`) become Lean lists kept in
traversal order, so `Module.fields` is the list obtained by walking
`first_field` via `next`; pointer-valued caches become lists of values;
`StringSlice` names become `Option String` (the empty slice is `none`,
and only named entities are registered in binding tables).  Source
locations are kept where the source keeps them but are dropped from
binding-table entries, where they serve diagnostics only.
-/

set_option maxHeartbeats 1000000

namespace wabt

/-- Modelled from the spec / `common.h` (absent from the sources): indices
are unsigned integers, modelled as `Nat`. -/
abbrev Index := Nat

/-- Modelled from the spec / `common.h` (absent): the sentinel invalid
index, `UINT32_MAX`, meaning "absent/unset". -/
def kInvalidIndex : Index := 4294967295

/-- Modelled from `common.h` (absent): a source location (filename, line,
column range), carried for diagnostics. -/
structure Location where
  filename : String
  line : Nat
  first_column : Nat
  last_column : Nat
deriving DecidableEq, Inhabited, Repr

/-- Modelled from `opcode.h` (absent): opcodes are identified by their
numeric value, which is all the IR layer needs. -/
abbrev Opcode := Nat

/-- Modelled from `common.h` (absent): the value-type enumeration. -/
inductive Ty where
  | i32
  | i64
  | f32
  | f64
  | anyfunc
  | func
  | void
  | any
deriving DecidableEq, Inhabited, Repr

abbrev TypeVector := List Ty

/-- Modelled from `common.h` (absent): limits for tables/memories. -/
structure Limits where
  initial : Nat
  max : Option Nat
deriving DecidableEq, Inhabited, Repr

/-- Modelled from `common.h` (absent): the external-kind enumeration used
by imports and exports. -/
inductive ExternalKind where
  | Func
  | Table
  | Memory
  | Global
  | Except
deriving DecidableEq, Inhabited, Repr

/-- The payload of a `Var` (`ir.h:34-56`): the `VarType` discriminant plus
the union arm, rendered as a sum type per the spec's design notes. -/
inductive VarKind where
  | index (index : Index)
  | name (name : String)
deriving DecidableEq, Inhabited, Repr

/-- A symbolic reference (`ir.h:39-56`): a positional index or a textual
name, carrying a source location. -/
structure Var where
  loc : Location
  kind : VarKind
deriving DecidableEq, Inhabited, Repr

/-- The payload of a `Const` (`ir.h:61-89`): four numeric kinds; float
payloads are raw bit patterns. -/
inductive ConstValue where
  | I32 (u32 : Nat)
  | I64 (u64 : Nat)
  | F32 (f32_bits : Nat)
  | F64 (f64_bits : Nat)
deriving DecidableEq, Inhabited, Repr

/-- A typed literal value (`ir.h:61-89`). -/
structure Const where
  loc : Location
  value : ConstValue
deriving DecidableEq, Inhabited, Repr

abbrev BlockSignature := TypeVector

/-- A block (`ir.h:129-138`), generic over the expression type so that the
`Expr` inductive below can nest it: label, result signature, and the head
of its owned expression list (`none` = empty body). -/
structure BlockG (ε : Type) where
  label : Option String
  sig : BlockSignature
  first : Option ε
deriving Inhabited

/-- A catch arm (`ir.h:140-152`), generic over the expression type: a
location, the exception `Var` (index-tagged `kInvalidIndex` = catch-all),
and the head of its owned expression list. -/
structure CatchG (ε : Type) where
  loc : Location
  var : Var
  first : Option ε

/-- The expression hierarchy (`ir.h:92-279`): each node is one of the ~30
`ExprType` discriminants with its kind-specific payload, and the
`next`-linked straight-line sequence is rendered by the `next` field.
Payload layouts follow the concrete subclasses (`OpcodeExpr`, `VarExpr`,
`BlockExprBase`, `IfExpr`, `TryExpr`, `BrTableExpr`, `ConstExpr`,
`LoadStoreExpr`). -/
inductive Expr where
  | Binary (loc : Location) (opcode : Opcode) (next : Option Expr)
  | Block (loc : Location) (block : BlockG Expr) (next : Option Expr)
  | Br (loc : Location) (var : Var) (next : Option Expr)
  | BrIf (loc : Location) (var : Var) (next : Option Expr)
  | BrTable (loc : Location) (targets : List Var) (default_target : Var)
      (next : Option Expr)
  | Call (loc : Location) (var : Var) (next : Option Expr)
  | CallIndirect (loc : Location) (var : Var) (next : Option Expr)
  | Compare (loc : Location) (opcode : Opcode) (next : Option Expr)
  | Const (loc : Location) (const_ : Const) (next : Option Expr)
  | Convert (loc : Location) (opcode : Opcode) (next : Option Expr)
  | CurrentMemory (loc : Location) (next : Option Expr)
  | Drop (loc : Location) (next : Option Expr)
  | GetGlobal (loc : Location) (var : Var) (next : Option Expr)
  | GetLocal (loc : Location) (var : Var) (next : Option Expr)
  | GrowMemory (loc : Location) (next : Option Expr)
  | If (loc : Location) (true_ : BlockG Expr) (false_ : Option Expr)
      (next : Option Expr)
  | Load (loc : Location) (opcode : Opcode) (align : Nat) (offset : Nat)
      (next : Option Expr)
  | Loop (loc : Location) (block : BlockG Expr) (next : Option Expr)
  | Nop (loc : Location) (next : Option Expr)
  | Rethrow (loc : Location) (var : Var) (next : Option Expr)
  | Return (loc : Location) (next : Option Expr)
  | Select (loc : Location) (next : Option Expr)
  | SetGlobal (loc : Location) (var : Var) (next : Option Expr)
  | SetLocal (loc : Location) (var : Var) (next : Option Expr)
  | Store (loc : Location) (opcode : Opcode) (align : Nat) (offset : Nat)
      (next : Option Expr)
  | TeeLocal (loc : Location) (var : Var) (next : Option Expr)
  | Throw (loc : Location) (var : Var) (next : Option Expr)
  | TryBlock (loc : Location) (block : Option (BlockG Expr))
      (catches : List (CatchG Expr)) (next : Option Expr)
  | Unary (loc : Location) (opcode : Opcode) (next : Option Expr)
  | Unreachable (loc : Location) (next : Option Expr)

abbrev Block := BlockG Expr

abbrev Catch := CatchG Expr

/-- Translated from `ir.h:149-151`:
`return var.type == VarType::Index && var.index == kInvalidIndex;`. -/
def CatchG.IsCatchAll (c : CatchG ε) : Bool :=
  match c.var.kind with
  | .index i => i == kInvalidIndex
  | .name _ => false

/-- An exception declaration (`ir.h:281-285`): name and signature. -/
structure Exception where
  name : Option String
  sig : TypeVector
deriving Inhabited

/-- A function signature (`ir.h:287-297`): ordered parameter types plus
ordered result types. -/
structure FuncSignature where
  param_types : TypeVector
  result_types : TypeVector
deriving DecidableEq, Inhabited, Repr

/-- Translated from `ir.h:291`. -/
def FuncSignature.GetNumParams (s : FuncSignature) : Index :=
  s.param_types.length

/-- Translated from `ir.h:292`. -/
def FuncSignature.GetNumResults (s : FuncSignature) : Index :=
  s.result_types.length

/-- Translated from `ir.h:293` (`return param_types[index];`): C++ vector
indexing is unchecked, so the model totalises out-of-range access with an
arbitrary type; the accessors are only specified for in-range indices. -/
def FuncSignature.GetParamType (s : FuncSignature) (index : Index) : Ty :=
  s.param_types.getD index Ty.any

/-- Translated from `ir.h:294`. -/
def FuncSignature.GetResultType (s : FuncSignature) (index : Index) : Ty :=
  s.result_types.getD index Ty.any

/-- Modelled from the spec: `FuncSignature::operator==` (declared at
`ir.h:296`, body in the absent `ir.cc`) — "two signatures are equal iff
their type sequences are equal element-wise", i.e. both the parameter
vectors and the result vectors compare equal as sequences. -/
def FuncSignature.eq (a b : FuncSignature) : Bool :=
  decide (a.param_types = b.param_types) &&
    decide (a.result_types = b.result_types)

/-- A named, module-level signature (`ir.h:299-311`). -/
structure FuncType where
  name : Option String
  sig : FuncSignature
deriving DecidableEq, Inhabited, Repr

/-- A function declaration (`ir.h:313-326`): either references a
`FuncType` by `Var` (`has_func_type`/`type_var`) or carries an inline
signature `sig`. -/
structure FuncDeclaration where
  has_func_type : Bool
  type_var : Var
  sig : FuncSignature
deriving Inhabited

/-- Translated from `ir.h:318`: `return sig.GetNumParams();`. -/
def FuncDeclaration.GetNumParams (d : FuncDeclaration) : Index :=
  d.sig.GetNumParams

/-- Translated from `ir.h:319`: `return sig.GetNumResults();`. -/
def FuncDeclaration.GetNumResults (d : FuncDeclaration) : Index :=
  d.sig.GetNumResults

/-- Translated from `ir.h:320`: `return sig.GetParamType(index);`. -/
def FuncDeclaration.GetParamType (d : FuncDeclaration) (index : Index) : Ty :=
  d.sig.GetParamType index

/-- Translated from `ir.h:321`: `return sig.GetResultType(index);`. -/
def FuncDeclaration.GetResultType (d : FuncDeclaration) (index : Index) : Ty :=
  d.sig.GetResultType index

/-- A function (`ir.h:328-349`): name, declaration, local types, the two
local binding tables (modelled below with the module-level tables), and
the owned body list head (`none` for an import stub). -/
structure Func where
  name : Option String
  decl : FuncDeclaration
  local_types : TypeVector
  first_expr : Option Expr
deriving Inhabited

/-- A global (`ir.h:351-360`). -/
structure Global where
  name : Option String
  type : Ty
  mutable_ : Bool
  init_expr : Option Expr
deriving Inhabited

/-- A table (`ir.h:362-369`). -/
structure Table where
  name : Option String
  elem_limits : Limits
deriving DecidableEq, Inhabited, Repr

/-- An element segment (`ir.h:371-379`). -/
structure ElemSegment where
  table_var : Var
  offset : Option Expr
  vars : List Var
deriving Inhabited

/-- A memory (`ir.h:381-388`). -/
structure Memory where
  name : Option String
  page_limits : Limits
deriving DecidableEq, Inhabited, Repr

/-- A data segment (`ir.h:390-399`): the `char* data`/`size` pair is
modelled as a byte list. -/
structure DataSegment where
  memory_var : Var
  offset : Option Expr
  data : List Nat
deriving Inhabited

/-- The payload of an `Import` (`ir.h:401-419`): the `ExternalKind`
discriminant with the matching union arm. -/
inductive ImportKind where
  | func (func : Func)
  | table (table : Table)
  | memory (memory : Memory)
  | global (global : Global)
  | except (except_ : Exception)

/-- An import (`ir.h:401-419`). -/
structure Import where
  module_name : String
  field_name : String
  kind : ImportKind

/-- An export (`ir.h:421-429`). -/
structure Export where
  name : String
  kind : ExternalKind
  var : Var
deriving Inhabited

/-- A top-level module field (`ir.h:431-579`): the `ModuleFieldType`
discriminant with the owned declaration object of the matching
`ModuleFieldMixin` subclass.  The `next`-linked list of fields is
rendered as `Module.fields` below. -/
inductive ModuleField where
  | Func (func : Func)
  | Global (global : Global)
  | Import (import_ : Import)
  | Export (export_ : Export)
  | FuncType (func_type : FuncType)
  | Table (table : Table)
  | ElemSegment (elem_segment : ElemSegment)
  | Memory (memory : Memory)
  | DataSegment (data_segment : DataSegment)
  | Start (start : Var)
  | Except (except_ : Exception)

/-- Modelled from the spec / `binding-hash.h` (absent): a binding table is
a name-to-index associative structure; it is rendered as an association
list in which later registrations are prepended, so that a later identical
name shadows an earlier one for lookup while the earlier entry remains in
the table. -/
abbrev BindingHash := List (String × Index)

/-- Modelled from the spec: name lookup in a binding table — the bound
index of the first (most recently registered) matching entry, or
`kInvalidIndex` when the name is unbound.  Lookup is total: absence is a
value, never an exception. -/
def BindingHash.FindIndex : BindingHash → String → Index
  | [], _ => kInvalidIndex
  | (k, v) :: rest, n => if k = n then v else BindingHash.FindIndex rest n

/-- Modelled from the spec: registration of an optionally-named entity at
index `i`; unnamed entities are not registered. -/
def BindingHash.bindName (bs : BindingHash) (name : Option String)
    (i : Index) : BindingHash :=
  match name with
  | none => bs
  | some n => (n, i) :: bs

/-- Modelled from the spec: `BindingHash::FindIndex(Var)` — an
index-tagged `Var` is returned verbatim (no bounds validation at this
layer); a name-tagged `Var` is looked up in the table. -/
def BindingHash.FindIndexVar (bs : BindingHash) (v : Var) : Index :=
  match v.kind with
  | .index i => i
  | .name n => bs.FindIndex n

/-- The module aggregate (`ir.h:581-640`): the field list (the
`first_field`/`next` chain in traversal order), import counters, the
per-kind cached vectors, the start field, and the per-namespace binding
tables. -/
structure Module where
  loc : Location
  name : Option String
  fields : List ModuleField
  num_except_imports : Index
  num_func_imports : Index
  num_table_imports : Index
  num_memory_imports : Index
  num_global_imports : Index
  excepts : List Exception
  funcs : List Func
  globals : List Global
  imports : List Import
  exports : List Export
  func_types : List FuncType
  tables : List Table
  elem_segments : List ElemSegment
  memories : List Memory
  data_segments : List DataSegment
  start : Option Var
  except_bindings : BindingHash
  func_bindings : BindingHash
  global_bindings : BindingHash
  export_bindings : BindingHash
  func_type_bindings : BindingHash
  table_bindings : BindingHash
  memory_bindings : BindingHash

/-- Modelled from the spec: `Module::Module()` (body in the absent
`ir.cc`) — a fresh module has an empty field list, empty caches and
binding tables, zero import counters and no start field. -/
def Module.empty : Module where
  loc := default
  name := none
  fields := []
  num_except_imports := 0
  num_func_imports := 0
  num_table_imports := 0
  num_memory_imports := 0
  num_global_imports := 0
  excepts := []
  funcs := []
  globals := []
  imports := []
  exports := []
  func_types := []
  tables := []
  elem_segments := []
  memories := []
  data_segments := []
  start := none
  except_bindings := []
  func_bindings := []
  global_bindings := []
  export_bindings := []
  func_type_bindings := []
  table_bindings := []
  memory_bindings := []

/-- Modelled from the spec: `Module::AppendField` (declared at
`ir.h:586`, body in the absent `ir.cc`) — links the owned field node at
the tail of the field list and, based on its discriminant, pushes the
underlying declaration onto the matching cached vector and, if named,
registers the name in the matching binding table at the declaration's
position in that vector (later identical names shadow).  For an import,
the inner declaration joins the same per-kind vector and binding table
(imports share each kind's index space) and the matching import counter
is incremented.  A start field records the start `Var`. -/
def Module.AppendField (m : Module) (f : ModuleField) : Module :=
  match f with
  | .Func func =>
      { m with
        fields := m.fields ++ [.Func func]
        func_bindings := m.func_bindings.bindName func.name m.funcs.length
        funcs := m.funcs ++ [func] }
  | .Global global =>
      { m with
        fields := m.fields ++ [.Global global]
        global_bindings :=
          m.global_bindings.bindName global.name m.globals.length
        globals := m.globals ++ [global] }
  | .Import import_ =>
      let m' := { m with
        fields := m.fields ++ [ModuleField.Import import_]
        imports := m.imports ++ [import_] }
      match import_.kind with
      | .func func =>
          { m' with
            func_bindings :=
              m'.func_bindings.bindName func.name m'.funcs.length
            funcs := m'.funcs ++ [func]
            num_func_imports := m'.num_func_imports + 1 }
      | .table table =>
          { m' with
            table_bindings :=
              m'.table_bindings.bindName table.name m'.tables.length
            tables := m'.tables ++ [table]
            num_table_imports := m'.num_table_imports + 1 }
      | .memory memory =>
          { m' with
            memory_bindings :=
              m'.memory_bindings.bindName memory.name m'.memories.length
            memories := m'.memories ++ [memory]
            num_memory_imports := m'.num_memory_imports + 1 }
      | .global global =>
          { m' with
            global_bindings :=
              m'.global_bindings.bindName global.name m'.globals.length
            globals := m'.globals ++ [global]
            num_global_imports := m'.num_global_imports + 1 }
      | .except except_ =>
          { m' with
            except_bindings :=
              m'.except_bindings.bindName except_.name m'.excepts.length
            excepts := m'.excepts ++ [except_]
            num_except_imports := m'.num_except_imports + 1 }
  | .Export export_ =>
      { m with
        fields := m.fields ++ [.Export export_]
        export_bindings :=
          m.export_bindings.bindName (some export_.name) m.exports.length
        exports := m.exports ++ [export_] }
  | .FuncType func_type =>
      { m with
        fields := m.fields ++ [.FuncType func_type]
        func_type_bindings :=
          m.func_type_bindings.bindName func_type.name m.func_types.length
        func_types := m.func_types ++ [func_type] }
  | .Table table =>
      { m with
        fields := m.fields ++ [.Table table]
        table_bindings :=
          m.table_bindings.bindName table.name m.tables.length
        tables := m.tables ++ [table] }
  | .ElemSegment elem_segment =>
      { m with
        fields := m.fields ++ [.ElemSegment elem_segment]
        elem_segments := m.elem_segments ++ [elem_segment] }
  | .Memory memory =>
      { m with
        fields := m.fields ++ [.Memory memory]
        memory_bindings :=
          m.memory_bindings.bindName memory.name m.memories.length
        memories := m.memories ++ [memory] }
  | .DataSegment data_segment =>
      { m with
        fields := m.fields ++ [.DataSegment data_segment]
        data_segments := m.data_segments ++ [data_segment] }
  | .Start start =>
      { m with
        fields := m.fields ++ [.Start start]
        start := some start }
  | .Except except_ =>
      { m with
        fields := m.fields ++ [.Except except_]
        except_bindings :=
          m.except_bindings.bindName except_.name m.excepts.length
        excepts := m.excepts ++ [except_] }

/-- Modelled from the spec: `Module::GetFuncIndex` (declared at
`ir.h:594`) — resolve a `Var` against the function binding table: an
index is returned verbatim, a name is looked up, an unbound name yields
`kInvalidIndex`. -/
def Module.GetFuncIndex (m : Module) (v : Var) : Index :=
  m.func_bindings.FindIndexVar v

/-- Modelled from the spec: `Module::GetFuncTypeIndex(const Var&)`
(declared at `ir.h:589`). -/
def Module.GetFuncTypeIndex (m : Module) (v : Var) : Index :=
  m.func_type_bindings.FindIndexVar v

/-- Modelled from the spec: `Module::GetTableIndex` (declared at
`ir.h:597`). -/
def Module.GetTableIndex (m : Module) (v : Var) : Index :=
  m.table_bindings.FindIndexVar v

/-- Modelled from the spec: `Module::GetMemoryIndex` (declared at
`ir.h:599`). -/
def Module.GetMemoryIndex (m : Module) (v : Var) : Index :=
  m.memory_bindings.FindIndexVar v

/-- Modelled from the spec: `Module::GetGlobalIndex` (declared at
`ir.h:601`). -/
def Module.GetGlobalIndex (m : Module) (v : Var) : Index :=
  m.global_bindings.FindIndexVar v

/-- Modelled from the spec: `Module::GetExceptIndex` (declared at
`ir.h:606`). -/
def Module.GetExceptIndex (m : Module) (v : Var) : Index :=
  m.except_bindings.FindIndexVar v

/-- Modelled from the spec: the scan inside
`Module::GetFuncTypeIndex(const FuncSignature&)` — walk the `func_types`
vector from position `off` and return the position of the first
`FuncType` whose signature compares structurally equal, else
`kInvalidIndex`. -/
def findFuncTypeIndex (sig : FuncSignature) : Nat → List FuncType → Index
  | _, [] => kInvalidIndex
  | i, ft :: rest =>
      if FuncSignature.eq ft.sig sig then i
      else findFuncTypeIndex sig (i + 1) rest

/-- Modelled from the spec: `Module::GetFuncTypeIndex(const
FuncSignature&)` (declared at `ir.h:591`) — structural lookup of a
signature in the type table. -/
def Module.GetFuncTypeIndexBySig (m : Module) (sig : FuncSignature) :
    Index :=
  findFuncTypeIndex sig 0 m.func_types

/-- Modelled from the spec: `Module::AppendImplicitFuncType` (declared at
`ir.h:587`) — if a structurally equal `FuncType` already exists, the
module is unchanged (the existing entry is returned in C++); otherwise a
new unnamed `FuncType` carrying the signature is appended as a field.
The model returns the updated module; the C++ `FuncType*` return value is
the entry at `GetFuncTypeIndexBySig sig`. -/
def Module.AppendImplicitFuncType (m : Module) (sig : FuncSignature) :
    Module :=
  if m.GetFuncTypeIndexBySig sig = kInvalidIndex then
    m.AppendField (.FuncType { name := none, sig := sig })
  else m

/-- A script-level module (`ir.h:644-675`): the deferred-parse union —
an already-parsed text module, or raw bytes tagged `Binary`/`Quoted`,
each binary/quoted arm storing its own location, name and data. -/
inductive ScriptModule where
  | text (text : Module)
  | binary (loc : Location) (name : Option String) (data : List Nat)
  | quoted (loc : Location) (name : Option String) (data : List Nat)

/-- Translated from `ir.h:655-662`: dispatch on the tag — `Binary`
returns `binary.loc`, `Quoted` returns `quoted.loc`, `Text` returns
`text->loc`. -/
def ScriptModule.GetLocation : ScriptModule → Location
  | .binary loc _ _ => loc
  | .quoted loc _ _ => loc
  | .text m => Module.loc m

/-! Derived views used to state the append/lookup invariants: for each
entity kind, the declaration (if any) that a `ModuleField` contributes to
that kind's cached vector — a direct field of the kind, or an import of
the kind. -/

/-- The `Func` a field contributes to the `funcs` cache. -/
def ModuleField.funcOf : ModuleField → Option wabt.Func
  | .Func func => some func
  | .Import import_ =>
      match import_.kind with
      | .func func => some func
      | _ => none
  | _ => none

/-- The `FuncType` a field contributes to the `func_types` cache. -/
def ModuleField.funcTypeOf : ModuleField → Option wabt.FuncType
  | .FuncType func_type => some func_type
  | _ => none

/-- The `Table` a field contributes to the `tables` cache. -/
def ModuleField.tableOf : ModuleField → Option wabt.Table
  | .Table table => some table
  | .Import import_ =>
      match import_.kind with
      | .table table => some table
      | _ => none
  | _ => none

/-- The `Memory` a field contributes to the `memories` cache. -/
def ModuleField.memoryOf : ModuleField → Option wabt.Memory
  | .Memory memory => some memory
  | .Import import_ =>
      match import_.kind with
      | .memory memory => some memory
      | _ => none
  | _ => none

/-- The `Global` a field contributes to the `globals` cache. -/
def ModuleField.globalOf : ModuleField → Option wabt.Global
  | .Global global => some global
  | .Import import_ =>
      match import_.kind with
      | .global global => some global
      | _ => none
  | _ => none

/-- The `Exception` a field contributes to the `excepts` cache. -/
def ModuleField.exceptOf : ModuleField → Option wabt.Exception
  | .Except except_ => some except_
  | .Import import_ =>
      match import_.kind with
      | .except except_ => some except_
      | _ => none
  | _ => none

/-- The module obtained by a sequence of `AppendField` calls on a fresh
module. -/
def buildModule (fs : List ModuleField) : Module :=
  fs.foldl Module.AppendField Module.empty

/-- The functions appended by a field sequence, in call order. -/
def appendedFuncs (fs : List ModuleField) : List Func :=
  fs.filterMap ModuleField.funcOf

/-- The function types appended by a field sequence, in call order. -/
def appendedFuncTypes (fs : List ModuleField) : List FuncType :=
  fs.filterMap ModuleField.funcTypeOf

/-- The tables appended by a field sequence, in call order. -/
def appendedTables (fs : List ModuleField) : List Table :=
  fs.filterMap ModuleField.tableOf

/-- The memories appended by a field sequence, in call order. -/
def appendedMemories (fs : List ModuleField) : List Memory :=
  fs.filterMap ModuleField.memoryOf

/-- The globals appended by a field sequence, in call order. -/
def appendedGlobals (fs : List ModuleField) : List Global :=
  fs.filterMap ModuleField.globalOf

/-- The exceptions appended by a field sequence, in call order. -/
def appendedExcepts (fs : List ModuleField) : List Exception :=
  fs.filterMap ModuleField.exceptOf

/-- Whether a binding table has an entry for a name. -/
def containsKey : BindingHash → String → Bool
  | [], _ => false
  | (k, _) :: rest, n => if k = n then true else containsKey rest n

/-- The binding-table fragment contributed by registering one
optionally-named entity at index `i`. -/
def entryOf {α : Type} (nameOf : α → Option String) (e : α) (i : Index) :
    BindingHash :=
  match nameOf e with
  | none => []
  | some n => [(n, i)]

/-- The binding table that registering each element of `l` in order (the
element at position `p` under index `off + p`) produces: the most recent
registration sits at the front, so later identical names shadow. -/
def mkBindingsFrom {α : Type} (nameOf : α → Option String) :
    Nat → List α → BindingHash
  | _, [] => []
  | off, e :: rest =>
      mkBindingsFrom nameOf (off + 1) rest ++ entryOf nameOf e off

/-- Whether some element of `l` bears the name `n`. -/
def anyNamed {α : Type} (nameOf : α → Option String) (l : List α)
    (n : String) : Bool :=
  l.any fun e => decide (nameOf e = some n)

/-- The binding-table update a field performs for one kind: nothing when
the field contributes no entity of the kind, otherwise registration of
the contributed entity's name at index `i`. -/
def bindStep {α : Type} (nameOf : α → Option String) (bs : BindingHash)
    (ent : Option α) (i : Index) : BindingHash :=
  match ent with
  | none => bs
  | some e => bs.bindName (nameOf e) i

/-- A minimal named function used in concrete examples: no explicit type
reference, empty inline signature, no locals, no body. -/
def sampleFunc (n : String) : Func where
  name := some n
  decl := default
  local_types := []
  first_expr := none

/-- A small concrete field sequence with interleaved kinds: a function, a
global, and an imported function. -/
def demoFields : List ModuleField :=
  [ModuleField.Func (sampleFunc "f"),
   ModuleField.Global
     { name := some "x", type := Ty.i32, mutable_ := false,
       init_expr := none },
   ModuleField.Import
     { module_name := "env", field_name := "g",
       kind := .func (sampleFunc "g") }]

/-- A field sequence in which two functions share the name "f". -/
def shadowFields : List ModuleField :=
  [ModuleField.Func (sampleFunc "f"), ModuleField.Func (sampleFunc "f")]

/-! Lemmas about binding-table lookup. -/

theorem containsKey_eq_false_iff {bs : BindingHash} {n : String} :
    containsKey bs n = false ↔ ∀ p ∈ bs, p.1 ≠ n := by
  induction bs with
  | nil => simp [containsKey]
  | cons p rest ih =>
      obtain ⟨k, v⟩ := p
      by_cases hk : k = n <;> simp [containsKey, hk, ih]

theorem FindIndex_of_unbound {bs : BindingHash} {n : String}
    (h : ∀ p ∈ bs, p.1 ≠ n) : bs.FindIndex n = kInvalidIndex := by
  induction bs with
  | nil => rfl
  | cons p rest ih =>
      obtain ⟨k, v⟩ := p
      have hk : k ≠ n := h (k, v) (List.mem_cons_self _ _)
      simp only [BindingHash.FindIndex, if_neg hk]
      exact ih fun q hq => h q (List.mem_cons_of_mem _ hq)

theorem FindIndex_append_right {bs1 bs2 : BindingHash} {n : String}
    (h : containsKey bs1 n = false) :
    BindingHash.FindIndex (bs1 ++ bs2) n = bs2.FindIndex n := by
  induction bs1 with
  | nil => rfl
  | cons p rest ih =>
      obtain ⟨k, v⟩ := p
      have h' := containsKey_eq_false_iff.mp h
      have hk : k ≠ n := h' (k, v) (List.mem_cons_self _ _)
      simp only [List.cons_append, BindingHash.FindIndex, if_neg hk]
      exact ih (containsKey_eq_false_iff.mpr
        fun q hq => h' q (List.mem_cons_of_mem _ hq))

theorem FindIndex_append_left {bs1 bs2 : BindingHash} {n : String}
    (h : containsKey bs1 n = true) :
    BindingHash.FindIndex (bs1 ++ bs2) n = bs1.FindIndex n := by
  induction bs1 with
  | nil => simp [containsKey] at h
  | cons p rest ih =>
      obtain ⟨k, v⟩ := p
      by_cases hk : k = n
      · simp [BindingHash.FindIndex, hk]
      · simp only [containsKey, if_neg hk] at h
        simp only [List.cons_append, BindingHash.FindIndex, if_neg hk]
        exact ih h

theorem FindIndex_split {bs1 bs2 : BindingHash} {n : String} {j : Index}
    (h : ∀ p ∈ bs1, p.1 ≠ n) :
    BindingHash.FindIndex (bs1 ++ (n, j) :: bs2) n = j := by
  rw [FindIndex_append_right (containsKey_eq_false_iff.mpr h)]
  simp [BindingHash.FindIndex]

/-! Lemmas about the binding table produced by in-order registration. -/

theorem bindName_eq_entryOf {α : Type} (nameOf : α → Option String)
    (bs : BindingHash) (e : α) (i : Index) :
    bs.bindName (nameOf e) i = entryOf nameOf e i ++ bs := by
  cases h : nameOf e <;> simp [BindingHash.bindName, entryOf, h]

theorem mkBindingsFrom_snoc {α : Type} (nameOf : α → Option String) :
    ∀ (l : List α) (off : Nat) (e : α),
      mkBindingsFrom nameOf off (l ++ [e]) =
        entryOf nameOf e (off + l.length) ++ mkBindingsFrom nameOf off l := by
  intro l
  induction l with
  | nil => intro off e; simp [mkBindingsFrom]
  | cons x xs ih =>
      intro off e
      have harith : off + (x :: xs).length = (off + 1) + xs.length := by
        simp only [List.length_cons]; omega
      rw [List.cons_append, mkBindingsFrom, ih, harith, List.append_assoc,
        show mkBindingsFrom nameOf off (x :: xs) =
            mkBindingsFrom nameOf (off + 1) xs ++ entryOf nameOf x off
          from rfl]

theorem containsKey_append {bs1 bs2 : BindingHash} {n : String} :
    containsKey (bs1 ++ bs2) n = (containsKey bs1 n || containsKey bs2 n) := by
  induction bs1 with
  | nil => simp [containsKey]
  | cons p rest ih =>
      obtain ⟨k, v⟩ := p
      by_cases hk : k = n <;> simp [containsKey, hk, ih]

theorem containsKey_mkBindingsFrom {α : Type} (nameOf : α → Option String)
    (n : String) :
    ∀ (l : List α) (off : Nat),
      containsKey (mkBindingsFrom nameOf off l) n = anyNamed nameOf l n := by
  intro l
  induction l with
  | nil => intro off; rfl
  | cons e rest ih =>
      intro off
      simp only [mkBindingsFrom, containsKey_append, ih, anyNamed,
        List.any_cons]
      cases h : nameOf e with
      | none => simp [entryOf, h, containsKey]
      | some n' =>
          by_cases hn : n' = n <;>
            simp [entryOf, h, containsKey, hn, Bool.or_comm]

theorem anyNamed_eq_false_iff {α : Type} {nameOf : α → Option String}
    {l : List α} {n : String} :
    anyNamed nameOf l n = false ↔ ∀ e ∈ l, nameOf e ≠ some n := by
  simp [anyNamed]

theorem anyNamed_eq_true_iff {α : Type} {nameOf : α → Option String}
    {l : List α} {n : String} :
    anyNamed nameOf l n = true ↔ ∃ e ∈ l, nameOf e = some n := by
  simp [anyNamed]

theorem FindIndex_mkBindingsFrom {α : Type} (nameOf : α → Option String)
    (n : String) :
    ∀ (l : List α) (off j : Nat) (e : α),
      l[j]? = some e → nameOf e = some n →
      (∀ (k : Nat) (e' : α), j < k → l[k]? = some e' →
        nameOf e' ≠ some n) →
      BindingHash.FindIndex (mkBindingsFrom nameOf off l) n = off + j := by
  intro l
  induction l with
  | nil => intro off j e hget; simp at hget
  | cons x rest ih =>
      intro off j e hget hname hlast
      cases j with
      | zero =>
          simp only [List.getElem?_cons_zero, Option.some.injEq] at hget
          subst hget
          have hnone : ∀ e' ∈ rest, nameOf e' ≠ some n := by
            intro e' he'
            obtain ⟨k, hk⟩ := List.getElem?_of_mem he'
            exact hlast (k + 1) e' (Nat.succ_pos k) (by simpa using hk)
          have hfalse : containsKey (mkBindingsFrom nameOf (off + 1) rest) n
              = false := by
            rw [containsKey_mkBindingsFrom]
            exact anyNamed_eq_false_iff.mpr hnone
          rw [mkBindingsFrom, FindIndex_append_right hfalse]
          simp [entryOf, hname, BindingHash.FindIndex]
      | succ j' =>
          simp only [List.getElem?_cons_succ] at hget
          have hmem : e ∈ rest := List.getElem?_mem hget
          have htrue : containsKey (mkBindingsFrom nameOf (off + 1) rest) n
              = true := by
            rw [containsKey_mkBindingsFrom]
            exact anyNamed_eq_true_iff.mpr ⟨e, hmem, hname⟩
          rw [mkBindingsFrom, FindIndex_append_left htrue]
          have hrec := ih (off + 1) j' e hget hname
            (fun k e' hk hg => hlast (k + 1) e' (by omega)
              (by simpa using hg))
          rw [hrec]
          exact Nat.add_right_comm off 1 j'

theorem FindIndex_mkBindingsFrom_unbound {α : Type}
    (nameOf : α → Option String) (n : String) {l : List α} (off : Nat)
    (h : ∀ e ∈ l, nameOf e ≠ some n) :
    BindingHash.FindIndex (mkBindingsFrom nameOf off l) n = kInvalidIndex := by
  apply FindIndex_of_unbound
  apply containsKey_eq_false_iff.mp
  rw [containsKey_mkBindingsFrom]
  exact anyNamed_eq_false_iff.mpr h

/-! Step lemmas: the effect of one `AppendField` call on the field list
and on each kind's cache and binding table. -/

theorem AppendField_fields (m : Module) (f : ModuleField) :
    (m.AppendField f).fields = m.fields ++ [f] := by
  cases f <;> try rfl
  next import_ => obtain ⟨_, _, k⟩ := import_; cases k <;> rfl

theorem AppendField_funcs (m : Module) (f : ModuleField) :
    (m.AppendField f).funcs = m.funcs ++ f.funcOf.toList := by
  cases f <;>
    try (simp [Module.AppendField, ModuleField.funcOf])
  next import_ =>
    obtain ⟨_, _, k⟩ := import_
    cases k <;> simp [Module.AppendField, ModuleField.funcOf]

theorem AppendField_func_bindings (m : Module) (f : ModuleField) :
    (m.AppendField f).func_bindings =
      bindStep Func.name m.func_bindings f.funcOf m.funcs.length := by
  cases f <;> try rfl
  next import_ => obtain ⟨_, _, k⟩ := import_; cases k <;> rfl

theorem AppendField_func_types (m : Module) (f : ModuleField) :
    (m.AppendField f).func_types = m.func_types ++ f.funcTypeOf.toList := by
  cases f <;>
    try (simp [Module.AppendField, ModuleField.funcTypeOf])
  next import_ =>
    obtain ⟨_, _, k⟩ := import_
    cases k <;> simp [Module.AppendField, ModuleField.funcTypeOf]

theorem AppendField_func_type_bindings (m : Module) (f : ModuleField) :
    (m.AppendField f).func_type_bindings =
      bindStep FuncType.name m.func_type_bindings f.funcTypeOf m.func_types.length := by
  cases f <;> try rfl
  next import_ => obtain ⟨_, _, k⟩ := import_; cases k <;> rfl

theorem AppendField_tables (m : Module) (f : ModuleField) :
    (m.AppendField f).tables = m.tables ++ f.tableOf.toList := by
  cases f <;>
    try (simp [Module.AppendField, ModuleField.tableOf])
  next import_ =>
    obtain ⟨_, _, k⟩ := import_
    cases k <;> simp [Module.AppendField, ModuleField.tableOf]

theorem AppendField_table_bindings (m : Module) (f : ModuleField) :
    (m.AppendField f).table_bindings =
      bindStep Table.name m.table_bindings f.tableOf m.tables.length := by
  cases f <;> try rfl
  next import_ => obtain ⟨_, _, k⟩ := import_; cases k <;> rfl

theorem AppendField_memories (m : Module) (f : ModuleField) :
    (m.AppendField f).memories = m.memories ++ f.memoryOf.toList := by
  cases f <;>
    try (simp [Module.AppendField, ModuleField.memoryOf])
  next import_ =>
    obtain ⟨_, _, k⟩ := import_
    cases k <;> simp [Module.AppendField, ModuleField.memoryOf]

theorem AppendField_memory_bindings (m : Module) (f : ModuleField) :
    (m.AppendField f).memory_bindings =
      bindStep Memory.name m.memory_bindings f.memoryOf m.memories.length := by
  cases f <;> try rfl
  next import_ => obtain ⟨_, _, k⟩ := import_; cases k <;> rfl

theorem AppendField_globals (m : Module) (f : ModuleField) :
    (m.AppendField f).globals = m.globals ++ f.globalOf.toList := by
  cases f <;>
    try (simp [Module.AppendField, ModuleField.globalOf])
  next import_ =>
    obtain ⟨_, _, k⟩ := import_
    cases k <;> simp [Module.AppendField, ModuleField.globalOf]

theorem AppendField_global_bindings (m : Module) (f : ModuleField) :
    (m.AppendField f).global_bindings =
      bindStep Global.name m.global_bindings f.globalOf m.globals.length := by
  cases f <;> try rfl
  next import_ => obtain ⟨_, _, k⟩ := import_; cases k <;> rfl

theorem AppendField_excepts (m : Module) (f : ModuleField) :
    (m.AppendField f).excepts = m.excepts ++ f.exceptOf.toList := by
  cases f <;>
    try (simp [Module.AppendField, ModuleField.exceptOf])
  next import_ =>
    obtain ⟨_, _, k⟩ := import_
    cases k <;> simp [Module.AppendField, ModuleField.exceptOf]

theorem AppendField_except_bindings (m : Module) (f : ModuleField) :
    (m.AppendField f).except_bindings =
      bindStep Exception.name m.except_bindings f.exceptOf m.excepts.length := by
  cases f <;> try rfl
  next import_ => obtain ⟨_, _, k⟩ := import_; cases k <;> rfl

/-! Fold lemmas: the effect of a whole sequence of `AppendField` calls,
generic in the entity kind via its cache/bindings/projection functions. -/

theorem foldl_AppendField_fields :
    ∀ (fs : List ModuleField) (m : Module),
      (fs.foldl Module.AppendField m).fields = m.fields ++ fs := by
  intro fs
  induction fs with
  | nil => intro m; simp
  | cons f fs ih =>
      intro m
      simp only [List.foldl_cons, ih, AppendField_fields,
        List.append_assoc, List.singleton_append]

theorem foldl_AppendField_cache {α : Type} (cache : Module → List α)
    (entOf : ModuleField → Option α)
    (step : ∀ m f, cache (m.AppendField f) = cache m ++ (entOf f).toList) :
    ∀ (fs : List ModuleField) (m : Module),
      cache (fs.foldl Module.AppendField m) = cache m ++ fs.filterMap entOf := by
  intro fs
  induction fs with
  | nil => intro m; simp
  | cons f fs ih =>
      intro m
      simp only [List.foldl_cons, ih, step, List.filterMap_cons]
      cases entOf f <;> simp

theorem foldl_AppendField_bindings {α : Type} (cache : Module → List α)
    (bindings : Module → BindingHash) (entOf : ModuleField → Option α)
    (nameOf : α → Option String)
    (stepc : ∀ m f, cache (m.AppendField f) = cache m ++ (entOf f).toList)
    (stepb : ∀ m f, bindings (m.AppendField f) =
        bindStep nameOf (bindings m) (entOf f) (cache m).length) :
    ∀ (fs : List ModuleField) (m : Module),
      bindings m = mkBindingsFrom nameOf 0 (cache m) →
      bindings (fs.foldl Module.AppendField m) =
        mkBindingsFrom nameOf 0 (cache (fs.foldl Module.AppendField m)) := by
  intro fs
  induction fs with
  | nil => intro m h; simpa using h
  | cons f fs ih =>
      intro m h
      simp only [List.foldl_cons]
      apply ih
      rw [stepb, stepc]
      cases hf : entOf f with
      | none => simpa using h
      | some e =>
          rw [Option.toList_some, mkBindingsFrom_snoc]
          show (bindings m).bindName (nameOf e) (cache m).length = _
          rw [bindName_eq_entryOf nameOf, h]
          simp

/-! The state of a freshly built module: each cache lists exactly the
declarations appended for its kind, in call order, and each binding table
is the in-order registration of that cache's named entries. -/

theorem buildModule_funcs (fs : List ModuleField) :
    (buildModule fs).funcs = appendedFuncs fs := by
  have h := foldl_AppendField_cache Module.funcs ModuleField.funcOf
    AppendField_funcs fs Module.empty
  simpa [buildModule, appendedFuncs, Module.empty] using h

theorem buildModule_func_bindings (fs : List ModuleField) :
    (buildModule fs).func_bindings =
      mkBindingsFrom Func.name 0 (appendedFuncs fs) := by
  have h := foldl_AppendField_bindings Module.funcs Module.func_bindings
    ModuleField.funcOf Func.name AppendField_funcs AppendField_func_bindings
    fs Module.empty (by rfl)
  rw [buildModule, h, ← buildModule]
  rw [buildModule_funcs]

theorem buildModule_func_types (fs : List ModuleField) :
    (buildModule fs).func_types = appendedFuncTypes fs := by
  have h := foldl_AppendField_cache Module.func_types ModuleField.funcTypeOf
    AppendField_func_types fs Module.empty
  simpa [buildModule, appendedFuncTypes, Module.empty] using h

theorem buildModule_func_type_bindings (fs : List ModuleField) :
    (buildModule fs).func_type_bindings =
      mkBindingsFrom FuncType.name 0 (appendedFuncTypes fs) := by
  have h := foldl_AppendField_bindings Module.func_types
    Module.func_type_bindings ModuleField.funcTypeOf FuncType.name
    AppendField_func_types AppendField_func_type_bindings
    fs Module.empty (by rfl)
  rw [buildModule, h, ← buildModule]
  rw [buildModule_func_types]

theorem buildModule_tables (fs : List ModuleField) :
    (buildModule fs).tables = appendedTables fs := by
  have h := foldl_AppendField_cache Module.tables ModuleField.tableOf
    AppendField_tables fs Module.empty
  simpa [buildModule, appendedTables, Module.empty] using h

theorem buildModule_table_bindings (fs : List ModuleField) :
    (buildModule fs).table_bindings =
      mkBindingsFrom Table.name 0 (appendedTables fs) := by
  have h := foldl_AppendField_bindings Module.tables Module.table_bindings
    ModuleField.tableOf Table.name AppendField_tables
    AppendField_table_bindings fs Module.empty (by rfl)
  rw [buildModule, h, ← buildModule]
  rw [buildModule_tables]

theorem buildModule_memories (fs : List ModuleField) :
    (buildModule fs).memories = appendedMemories fs := by
  have h := foldl_AppendField_cache Module.memories ModuleField.memoryOf
    AppendField_memories fs Module.empty
  simpa [buildModule, appendedMemories, Module.empty] using h

theorem buildModule_memory_bindings (fs : List ModuleField) :
    (buildModule fs).memory_bindings =
      mkBindingsFrom Memory.name 0 (appendedMemories fs) := by
  have h := foldl_AppendField_bindings Module.memories Module.memory_bindings
    ModuleField.memoryOf Memory.name AppendField_memories
    AppendField_memory_bindings fs Module.empty (by rfl)
  rw [buildModule, h, ← buildModule]
  rw [buildModule_memories]

theorem buildModule_globals (fs : List ModuleField) :
    (buildModule fs).globals = appendedGlobals fs := by
  have h := foldl_AppendField_cache Module.globals ModuleField.globalOf
    AppendField_globals fs Module.empty
  simpa [buildModule, appendedGlobals, Module.empty] using h

theorem buildModule_global_bindings (fs : List ModuleField) :
    (buildModule fs).global_bindings =
      mkBindingsFrom Global.name 0 (appendedGlobals fs) := by
  have h := foldl_AppendField_bindings Module.globals Module.global_bindings
    ModuleField.globalOf Global.name AppendField_globals
    AppendField_global_bindings fs Module.empty (by rfl)
  rw [buildModule, h, ← buildModule]
  rw [buildModule_globals]

theorem buildModule_excepts (fs : List ModuleField) :
    (buildModule fs).excepts = appendedExcepts fs := by
  have h := foldl_AppendField_cache Module.excepts ModuleField.exceptOf
    AppendField_excepts fs Module.empty
  simpa [buildModule, appendedExcepts, Module.empty] using h

theorem buildModule_except_bindings (fs : List ModuleField) :
    (buildModule fs).except_bindings =
      mkBindingsFrom Exception.name 0 (appendedExcepts fs) := by
  have h := foldl_AppendField_bindings Module.excepts Module.except_bindings
    ModuleField.exceptOf Exception.name AppendField_excepts
    AppendField_except_bindings fs Module.empty (by rfl)
  rw [buildModule, h, ← buildModule]
  rw [buildModule_excepts]

/-! Name lookup on a freshly built module, per kind: if the entity at
kind-position `j` bears name `n` and no later entity of the kind does,
the name resolves to `j`. -/

theorem GetFuncIndex_name (fs : List ModuleField) (loc : Location)
    (n : String) (j : Nat) (e : Func)
    (hget : (appendedFuncs fs)[j]? = some e) (hname : e.name = some n)
    (hlast : ∀ (k : Nat) (e' : Func), j < k →
      (appendedFuncs fs)[k]? = some e' → e'.name ≠ some n) :
    (buildModule fs).GetFuncIndex ⟨loc, .name n⟩ = j := by
  show ((buildModule fs).func_bindings).FindIndex n = j
  rw [buildModule_func_bindings]
  simpa using FindIndex_mkBindingsFrom Func.name n (appendedFuncs fs) 0 j e
    hget hname hlast

theorem GetFuncTypeIndex_name (fs : List ModuleField) (loc : Location)
    (n : String) (j : Nat) (e : FuncType)
    (hget : (appendedFuncTypes fs)[j]? = some e) (hname : e.name = some n)
    (hlast : ∀ (k : Nat) (e' : FuncType), j < k →
      (appendedFuncTypes fs)[k]? = some e' → e'.name ≠ some n) :
    (buildModule fs).GetFuncTypeIndex ⟨loc, .name n⟩ = j := by
  show ((buildModule fs).func_type_bindings).FindIndex n = j
  rw [buildModule_func_type_bindings]
  simpa using FindIndex_mkBindingsFrom FuncType.name n (appendedFuncTypes fs)
    0 j e hget hname hlast

theorem GetTableIndex_name (fs : List ModuleField) (loc : Location)
    (n : String) (j : Nat) (e : Table)
    (hget : (appendedTables fs)[j]? = some e) (hname : e.name = some n)
    (hlast : ∀ (k : Nat) (e' : Table), j < k →
      (appendedTables fs)[k]? = some e' → e'.name ≠ some n) :
    (buildModule fs).GetTableIndex ⟨loc, .name n⟩ = j := by
  show ((buildModule fs).table_bindings).FindIndex n = j
  rw [buildModule_table_bindings]
  simpa using FindIndex_mkBindingsFrom Table.name n (appendedTables fs) 0 j e
    hget hname hlast

theorem GetMemoryIndex_name (fs : List ModuleField) (loc : Location)
    (n : String) (j : Nat) (e : Memory)
    (hget : (appendedMemories fs)[j]? = some e) (hname : e.name = some n)
    (hlast : ∀ (k : Nat) (e' : Memory), j < k →
      (appendedMemories fs)[k]? = some e' → e'.name ≠ some n) :
    (buildModule fs).GetMemoryIndex ⟨loc, .name n⟩ = j := by
  show ((buildModule fs).memory_bindings).FindIndex n = j
  rw [buildModule_memory_bindings]
  simpa using FindIndex_mkBindingsFrom Memory.name n (appendedMemories fs) 0
    j e hget hname hlast

theorem GetGlobalIndex_name (fs : List ModuleField) (loc : Location)
    (n : String) (j : Nat) (e : Global)
    (hget : (appendedGlobals fs)[j]? = some e) (hname : e.name = some n)
    (hlast : ∀ (k : Nat) (e' : Global), j < k →
      (appendedGlobals fs)[k]? = some e' → e'.name ≠ some n) :
    (buildModule fs).GetGlobalIndex ⟨loc, .name n⟩ = j := by
  show ((buildModule fs).global_bindings).FindIndex n = j
  rw [buildModule_global_bindings]
  simpa using FindIndex_mkBindingsFrom Global.name n (appendedGlobals fs) 0
    j e hget hname hlast

theorem GetExceptIndex_name (fs : List ModuleField) (loc : Location)
    (n : String) (j : Nat) (e : Exception)
    (hget : (appendedExcepts fs)[j]? = some e) (hname : e.name = some n)
    (hlast : ∀ (k : Nat) (e' : Exception), j < k →
      (appendedExcepts fs)[k]? = some e' → e'.name ≠ some n) :
    (buildModule fs).GetExceptIndex ⟨loc, .name n⟩ = j := by
  show ((buildModule fs).except_bindings).FindIndex n = j
  rw [buildModule_except_bindings]
  simpa using FindIndex_mkBindingsFrom Exception.name n (appendedExcepts fs)
    0 j e hget hname hlast

/-! Lemmas about structural signature equality and the type-table scan. -/

theorem FuncSignature.eq_iff {a b : FuncSignature} :
    FuncSignature.eq a b = true ↔
      a.param_types = b.param_types ∧ a.result_types = b.result_types := by
  simp [FuncSignature.eq]

theorem FuncSignature.eq_self (a : FuncSignature) :
    FuncSignature.eq a a = true := by
  simp [FuncSignature.eq]

theorem FuncSignature.eq_of_eq_of_eq {a s1 s2 : FuncSignature}
    (h1 : FuncSignature.eq a s1 = true) (h2 : FuncSignature.eq s1 s2 = true) :
    FuncSignature.eq a s2 = true := by
  rw [FuncSignature.eq_iff] at h1 h2 ⊢
  exact ⟨h1.1.trans h2.1, h1.2.trans h2.2⟩

theorem findFuncTypeIndex_of_no_match (sig : FuncSignature) :
    ∀ (l : List FuncType) (off : Nat),
      (∀ ft ∈ l, FuncSignature.eq ft.sig sig = false) →
      findFuncTypeIndex sig off l = kInvalidIndex := by
  intro l
  induction l with
  | nil => intro off h; rfl
  | cons ft rest ih =>
      intro off h
      have hft : FuncSignature.eq ft.sig sig = false :=
        h ft (List.mem_cons_self _ _)
      rw [findFuncTypeIndex, if_neg (by simp [hft])]
      exact ih (off + 1) fun x hx => h x (List.mem_cons_of_mem _ hx)

theorem findFuncTypeIndex_first (sig : FuncSignature) :
    ∀ (l : List FuncType) (off j : Nat) (e : FuncType),
      l[j]? = some e → FuncSignature.eq e.sig sig = true →
      (∀ (k : Nat) (e' : FuncType), k < j → l[k]? = some e' →
        FuncSignature.eq e'.sig sig = false) →
      findFuncTypeIndex sig off l = off + j := by
  intro l
  induction l with
  | nil => intro off j e hget; simp at hget
  | cons ft rest ih =>
      intro off j e hget heq hfirst
      cases j with
      | zero =>
          simp only [List.getElem?_cons_zero, Option.some.injEq] at hget
          subst hget
          rw [findFuncTypeIndex, if_pos heq, Nat.add_zero]
      | succ j' =>
          simp only [List.getElem?_cons_succ] at hget
          have hft : FuncSignature.eq ft.sig sig = false :=
            hfirst 0 ft (Nat.succ_pos j') (by simp)
          rw [findFuncTypeIndex, if_neg (by simp [hft])]
          have hrec := ih (off + 1) j' e hget heq
            (fun k e' hk hg => hfirst (k + 1) e' (by omega)
              (by simpa using hg))
          rw [hrec]
          exact Nat.add_right_comm off 1 j'

theorem findFuncTypeIndex_of_match (sig : FuncSignature) :
    ∀ (l : List FuncType) (off : Nat),
      (∃ ft ∈ l, FuncSignature.eq ft.sig sig = true) →
      ∃ j, j < l.length ∧ findFuncTypeIndex sig off l = off + j := by
  intro l
  induction l with
  | nil => intro off h; simp at h
  | cons ft rest ih =>
      intro off h
      by_cases hft : FuncSignature.eq ft.sig sig = true
      · exact ⟨0, by simp, by rw [findFuncTypeIndex, if_pos hft,
          Nat.add_zero]⟩
      · have hrest : ∃ x ∈ rest, FuncSignature.eq x.sig sig = true := by
          obtain ⟨x, hx, hxeq⟩ := h
          rcases List.mem_cons.mp hx with rfl | hx'
          · exact absurd hxeq hft
          · exact ⟨x, hx', hxeq⟩
        obtain ⟨j, hj, hfind⟩ := ih (off + 1) hrest
        refine ⟨j + 1, by simpa using hj, ?_⟩
        rw [findFuncTypeIndex, if_neg hft, hfind]
        exact Nat.add_right_comm off 1 j

theorem findFuncTypeIndex_ne_invalid_of_match {sig : FuncSignature}
    {l : List FuncType}
    (hlen : l.length ≤ kInvalidIndex)
    (h : ∃ ft ∈ l, FuncSignature.eq ft.sig sig = true) :
    findFuncTypeIndex sig 0 l ≠ kInvalidIndex := by
  obtain ⟨j, hj, hfind⟩ := findFuncTypeIndex_of_match sig l 0 h
  rw [hfind, Nat.zero_add]
  exact Nat.ne_of_lt (Nat.lt_of_lt_of_le hj hlen)

theorem exists_match_of_find_ne_invalid {sig : FuncSignature}
    {l : List FuncType}
    (h : findFuncTypeIndex sig 0 l ≠ kInvalidIndex) :
    ∃ ft ∈ l, FuncSignature.eq ft.sig sig = true := by
  by_contra hnone
  push_neg at hnone
  have : ∀ ft ∈ l, FuncSignature.eq ft.sig sig = false := by
    intro ft hft
    have := hnone ft hft
    simpa using this
  exact h (findFuncTypeIndex_of_no_match sig l 0 this)

/-! Claim theorems. -/

/-- Claim C3: each of the six per-kind index queries resolves an
index-tagged `Var` to its index verbatim (no bounds validation), and
resolves a name-tagged `Var` to the index bound to that name in the
matching binding table — the most recent binding when the name is bound,
and the sentinel `kInvalidIndex` when it is unbound.  All queries are
total functions: absence is signalled by the sentinel value, never by
throwing or aborting. -/
theorem C3_var_queries (m : Module) (loc : Location) (i : Index)
    (n : String) :
    (m.GetFuncIndex ⟨loc, .index i⟩ = i ∧
     m.GetFuncTypeIndex ⟨loc, .index i⟩ = i ∧
     m.GetTableIndex ⟨loc, .index i⟩ = i ∧
     m.GetMemoryIndex ⟨loc, .index i⟩ = i ∧
     m.GetGlobalIndex ⟨loc, .index i⟩ = i ∧
     m.GetExceptIndex ⟨loc, .index i⟩ = i) ∧
    (((∀ p ∈ m.func_bindings, p.1 ≠ n) →
        m.GetFuncIndex ⟨loc, .name n⟩ = kInvalidIndex) ∧
     (∀ (bs1 bs2 : BindingHash) (j : Index),
        m.func_bindings = bs1 ++ (n, j) :: bs2 → (∀ p ∈ bs1, p.1 ≠ n) →
        m.GetFuncIndex ⟨loc, .name n⟩ = j)) ∧
    (((∀ p ∈ m.func_type_bindings, p.1 ≠ n) →
        m.GetFuncTypeIndex ⟨loc, .name n⟩ = kInvalidIndex) ∧
     (∀ (bs1 bs2 : BindingHash) (j : Index),
        m.func_type_bindings = bs1 ++ (n, j) :: bs2 →
        (∀ p ∈ bs1, p.1 ≠ n) →
        m.GetFuncTypeIndex ⟨loc, .name n⟩ = j)) ∧
    (((∀ p ∈ m.table_bindings, p.1 ≠ n) →
        m.GetTableIndex ⟨loc, .name n⟩ = kInvalidIndex) ∧
     (∀ (bs1 bs2 : BindingHash) (j : Index),
        m.table_bindings = bs1 ++ (n, j) :: bs2 → (∀ p ∈ bs1, p.1 ≠ n) →
        m.GetTableIndex ⟨loc, .name n⟩ = j)) ∧
    (((∀ p ∈ m.memory_bindings, p.1 ≠ n) →
        m.GetMemoryIndex ⟨loc, .name n⟩ = kInvalidIndex) ∧
     (∀ (bs1 bs2 : BindingHash) (j : Index),
        m.memory_bindings = bs1 ++ (n, j) :: bs2 → (∀ p ∈ bs1, p.1 ≠ n) →
        m.GetMemoryIndex ⟨loc, .name n⟩ = j)) ∧
    (((∀ p ∈ m.global_bindings, p.1 ≠ n) →
        m.GetGlobalIndex ⟨loc, .name n⟩ = kInvalidIndex) ∧
     (∀ (bs1 bs2 : BindingHash) (j : Index),
        m.global_bindings = bs1 ++ (n, j) :: bs2 → (∀ p ∈ bs1, p.1 ≠ n) →
        m.GetGlobalIndex ⟨loc, .name n⟩ = j)) ∧
    (((∀ p ∈ m.except_bindings, p.1 ≠ n) →
        m.GetExceptIndex ⟨loc, .name n⟩ = kInvalidIndex) ∧
     (∀ (bs1 bs2 : BindingHash) (j : Index),
        m.except_bindings = bs1 ++ (n, j) :: bs2 → (∀ p ∈ bs1, p.1 ≠ n) →
        m.GetExceptIndex ⟨loc, .name n⟩ = j)) := by
  refine ⟨⟨rfl, rfl, rfl, rfl, rfl, rfl⟩, ⟨?_, ?_⟩, ⟨?_, ?_⟩, ⟨?_, ?_⟩,
    ⟨?_, ?_⟩, ⟨?_, ?_⟩, ⟨?_, ?_⟩⟩ <;>
    first
      | (intro h
         exact FindIndex_of_unbound h)
      | (intro bs1 bs2 j heq hnone
         show BindingHash.FindIndex _ n = j
         rw [heq]
         exact FindIndex_split hnone)

/-- Witness for C3: on a module whose function binding table binds only
"f" to 2, an index `Var` resolves verbatim, the unbound name "missing"
yields the sentinel, and the bound name "f" yields 2. -/
theorem C3_var_queries_witness :
    ({ Module.empty with func_bindings := [("f", 2)] } : Module).GetFuncIndex
        ⟨default, .index 5⟩ = 5 ∧
    ({ Module.empty with func_bindings := [("f", 2)] } : Module).GetFuncIndex
        ⟨default, .name "missing"⟩ = kInvalidIndex ∧
    ({ Module.empty with func_bindings := [("f", 2)] } : Module).GetFuncIndex
        ⟨default, .name "f"⟩ = 2 :=
  ⟨(C3_var_queries { Module.empty with func_bindings := [("f", 2)] }
      default 5 "missing").1.1,
   (C3_var_queries { Module.empty with func_bindings := [("f", 2)] }
      default 5 "missing").2.1.1 (by decide),
   (C3_var_queries { Module.empty with func_bindings := [("f", 2)] }
      default 5 "f").2.1.2 [] [] 2 rfl (by simp)⟩

/-- Claim C4: `GetFuncTypeIndex` on a `FuncSignature` returns the index
of the first existing `FuncType` whose signature compares structurally
equal (and the sentinel when none exists); and `AppendImplicitFuncType`
de-duplicates — a second call with a structurally equal signature adds no
`FuncType` entry, and `GetFuncTypeIndex` on the signature returns the
same (valid) index both times. -/
theorem C4_functype_dedup (m : Module) (s s1 s2 : FuncSignature) :
    ((∀ ft ∈ m.func_types, FuncSignature.eq ft.sig s = false) →
      m.GetFuncTypeIndexBySig s = kInvalidIndex) ∧
    (∀ (j : Nat) (e : FuncType), m.func_types[j]? = some e →
      FuncSignature.eq e.sig s = true →
      (∀ (k : Nat) (e' : FuncType), k < j → m.func_types[k]? = some e' →
        FuncSignature.eq e'.sig s = false) →
      m.GetFuncTypeIndexBySig s = j) ∧
    (FuncSignature.eq s1 s2 = true → m.func_types.length < kInvalidIndex →
      ((m.AppendImplicitFuncType s1).AppendImplicitFuncType s2).func_types =
        (m.AppendImplicitFuncType s1).func_types ∧
      ((m.AppendImplicitFuncType s1).AppendImplicitFuncType
          s2).GetFuncTypeIndexBySig s1 =
        (m.AppendImplicitFuncType s1).GetFuncTypeIndexBySig s1 ∧
      (m.AppendImplicitFuncType s1).GetFuncTypeIndexBySig s1
        ≠ kInvalidIndex) := by
  refine ⟨?_, ?_, ?_⟩
  · intro h
    exact findFuncTypeIndex_of_no_match s m.func_types 0 h
  · intro j e hget heq hfirst
    show findFuncTypeIndex s 0 m.func_types = j
    simpa using findFuncTypeIndex_first s m.func_types 0 j e hget heq hfirst
  · intro hs12 hlen
    by_cases h1 : m.GetFuncTypeIndexBySig s1 = kInvalidIndex
    · have hm1 : m.AppendImplicitFuncType s1 =
          m.AppendField (.FuncType { name := none, sig := s1 }) := by
        rw [Module.AppendImplicitFuncType, if_pos h1]
      have hft : (m.AppendImplicitFuncType s1).func_types =
          m.func_types ++ [{ name := none, sig := s1 }] := by
        rw [hm1, AppendField_func_types]
        rfl
      have hlen1 : (m.AppendImplicitFuncType s1).func_types.length
          ≤ kInvalidIndex := by
        rw [hft]
        simp only [List.length_append, List.length_cons, List.length_nil]
        omega
      have hmem : ({ name := none, sig := s1 } : FuncType)
          ∈ (m.AppendImplicitFuncType s1).func_types := by
        rw [hft]
        exact List.mem_append_right _ (List.mem_singleton.mpr rfl)
      have hmatch1 : ∃ ft ∈ (m.AppendImplicitFuncType s1).func_types,
          FuncSignature.eq ft.sig s1 = true :=
        ⟨_, hmem, FuncSignature.eq_self s1⟩
      have hmatch2 : ∃ ft ∈ (m.AppendImplicitFuncType s1).func_types,
          FuncSignature.eq ft.sig s2 = true :=
        ⟨_, hmem, hs12⟩
      have h2ne : (m.AppendImplicitFuncType s1).GetFuncTypeIndexBySig s2
          ≠ kInvalidIndex :=
        findFuncTypeIndex_ne_invalid_of_match hlen1 hmatch2
      have hm2 : (m.AppendImplicitFuncType s1).AppendImplicitFuncType s2 =
          m.AppendImplicitFuncType s1 := by
        rw [Module.AppendImplicitFuncType, if_neg h2ne]
      exact ⟨by rw [hm2], by rw [hm2],
        findFuncTypeIndex_ne_invalid_of_match hlen1 hmatch1⟩
    · have hm1 : m.AppendImplicitFuncType s1 = m := by
        rw [Module.AppendImplicitFuncType, if_neg h1]
      have hmatch1 : ∃ ft ∈ m.func_types,
          FuncSignature.eq ft.sig s1 = true :=
        exists_match_of_find_ne_invalid h1
      have hmatch2 : ∃ ft ∈ m.func_types,
          FuncSignature.eq ft.sig s2 = true := by
        obtain ⟨ft, hmem, hfteq⟩ := hmatch1
        exact ⟨ft, hmem, FuncSignature.eq_of_eq_of_eq hfteq hs12⟩
      have h2ne : m.GetFuncTypeIndexBySig s2 ≠ kInvalidIndex :=
        findFuncTypeIndex_ne_invalid_of_match (Nat.le_of_lt hlen) hmatch2
      have hm2 : (m.AppendImplicitFuncType s1).AppendImplicitFuncType s2 =
          m.AppendImplicitFuncType s1 := by
        rw [hm1, Module.AppendImplicitFuncType, if_neg h2ne]
      exact ⟨by rw [hm2], by rw [hm2], by rw [hm1]; exact h1⟩

/-- Witness for C4: on the empty module, two `AppendImplicitFuncType`
calls with the same signature `([i32], [])` yield one `FuncType` entry
and a stable, valid index. -/
theorem C4_functype_dedup_witness :
    ((Module.empty.AppendImplicitFuncType
        ⟨[Ty.i32], []⟩).AppendImplicitFuncType ⟨[Ty.i32], []⟩).func_types =
      (Module.empty.AppendImplicitFuncType ⟨[Ty.i32], []⟩).func_types ∧
    ((Module.empty.AppendImplicitFuncType
        ⟨[Ty.i32], []⟩).AppendImplicitFuncType
        ⟨[Ty.i32], []⟩).GetFuncTypeIndexBySig ⟨[Ty.i32], []⟩ =
      (Module.empty.AppendImplicitFuncType
        ⟨[Ty.i32], []⟩).GetFuncTypeIndexBySig ⟨[Ty.i32], []⟩ ∧
    (Module.empty.AppendImplicitFuncType
        ⟨[Ty.i32], []⟩).GetFuncTypeIndexBySig ⟨[Ty.i32], []⟩
      ≠ kInvalidIndex :=
  (C4_functype_dedup Module.empty ⟨[Ty.i32], []⟩ ⟨[Ty.i32], []⟩
    ⟨[Ty.i32], []⟩).2.2 (FuncSignature.eq_self ⟨[Ty.i32], []⟩) (by decide)

/-- Counterexample to Claim C2 as stated: when two fields of the same
kind share a name, the name part of index coherence fails for the
earlier one.  With two `Func` fields both named "f", the 0th function
appended is named "f" (first two conjuncts), yet `GetFuncIndex` on a
`Var` carrying that name returns 1, not 0 (last two conjuncts), because
the later binding shadows the earlier one. -/
theorem C2_index_coherence_counterexample :
    (appendedFuncs shadowFields)[0]? = some (sampleFunc "f") ∧
    (sampleFunc "f").name = some "f" ∧
    (buildModule shadowFields).GetFuncIndex ⟨default, .name "f"⟩ = 1 ∧
    ¬ (buildModule shadowFields).GetFuncIndex ⟨default, .name "f"⟩ = 0 := by
  refine ⟨rfl, rfl, rfl, ?_⟩
  intro h
  have h1 : (buildModule shadowFields).GetFuncIndex ⟨default, .name "f"⟩ = 1 :=
    rfl
  rw [h] at h1
  exact Nat.zero_ne_one h1

/-- Claim C2 (amended): for every kind K, the i-th entity of kind K
appended (directly or through an import of kind K) sits at position i of
the kind-K cached vector, and `Get<K>Index` on `Var(Index = i)` returns
i verbatim; `Get<K>Index` on a `Var` carrying the entity's name returns
i provided no later entity of kind K bears the same name (without that
proviso the later binding shadows the earlier entity, see the
counterexample). -/
theorem C2_index_coherence (fs : List ModuleField) :
    ((buildModule fs).funcs = appendedFuncs fs ∧
     (∀ (loc : Location) (i : Index),
        (buildModule fs).GetFuncIndex ⟨loc, .index i⟩ = i) ∧
     (∀ (loc : Location) (n : String) (j : Nat) (e : Func),
        (appendedFuncs fs)[j]? = some e → e.name = some n →
        (∀ (k : Nat) (e' : Func), j < k →
          (appendedFuncs fs)[k]? = some e' → e'.name ≠ some n) →
        (buildModule fs).GetFuncIndex ⟨loc, .name n⟩ = j)) ∧
    ((buildModule fs).func_types = appendedFuncTypes fs ∧
     (∀ (loc : Location) (i : Index),
        (buildModule fs).GetFuncTypeIndex ⟨loc, .index i⟩ = i) ∧
     (∀ (loc : Location) (n : String) (j : Nat) (e : FuncType),
        (appendedFuncTypes fs)[j]? = some e → e.name = some n →
        (∀ (k : Nat) (e' : FuncType), j < k →
          (appendedFuncTypes fs)[k]? = some e' → e'.name ≠ some n) →
        (buildModule fs).GetFuncTypeIndex ⟨loc, .name n⟩ = j)) ∧
    ((buildModule fs).tables = appendedTables fs ∧
     (∀ (loc : Location) (i : Index),
        (buildModule fs).GetTableIndex ⟨loc, .index i⟩ = i) ∧
     (∀ (loc : Location) (n : String) (j : Nat) (e : Table),
        (appendedTables fs)[j]? = some e → e.name = some n →
        (∀ (k : Nat) (e' : Table), j < k →
          (appendedTables fs)[k]? = some e' → e'.name ≠ some n) →
        (buildModule fs).GetTableIndex ⟨loc, .name n⟩ = j)) ∧
    ((buildModule fs).memories = appendedMemories fs ∧
     (∀ (loc : Location) (i : Index),
        (buildModule fs).GetMemoryIndex ⟨loc, .index i⟩ = i) ∧
     (∀ (loc : Location) (n : String) (j : Nat) (e : Memory),
        (appendedMemories fs)[j]? = some e → e.name = some n →
        (∀ (k : Nat) (e' : Memory), j < k →
          (appendedMemories fs)[k]? = some e' → e'.name ≠ some n) →
        (buildModule fs).GetMemoryIndex ⟨loc, .name n⟩ = j)) ∧
    ((buildModule fs).globals = appendedGlobals fs ∧
     (∀ (loc : Location) (i : Index),
        (buildModule fs).GetGlobalIndex ⟨loc, .index i⟩ = i) ∧
     (∀ (loc : Location) (n : String) (j : Nat) (e : Global),
        (appendedGlobals fs)[j]? = some e → e.name = some n →
        (∀ (k : Nat) (e' : Global), j < k →
          (appendedGlobals fs)[k]? = some e' → e'.name ≠ some n) →
        (buildModule fs).GetGlobalIndex ⟨loc, .name n⟩ = j)) ∧
    ((buildModule fs).excepts = appendedExcepts fs ∧
     (∀ (loc : Location) (i : Index),
        (buildModule fs).GetExceptIndex ⟨loc, .index i⟩ = i) ∧
     (∀ (loc : Location) (n : String) (j : Nat) (e : Exception),
        (appendedExcepts fs)[j]? = some e → e.name = some n →
        (∀ (k : Nat) (e' : Exception), j < k →
          (appendedExcepts fs)[k]? = some e' → e'.name ≠ some n) →
        (buildModule fs).GetExceptIndex ⟨loc, .name n⟩ = j)) :=
  ⟨⟨buildModule_funcs fs, fun _ _ => rfl,
    fun loc n j e hget hname hlast =>
      GetFuncIndex_name fs loc n j e hget hname hlast⟩,
   ⟨buildModule_func_types fs, fun _ _ => rfl,
    fun loc n j e hget hname hlast =>
      GetFuncTypeIndex_name fs loc n j e hget hname hlast⟩,
   ⟨buildModule_tables fs, fun _ _ => rfl,
    fun loc n j e hget hname hlast =>
      GetTableIndex_name fs loc n j e hget hname hlast⟩,
   ⟨buildModule_memories fs, fun _ _ => rfl,
    fun loc n j e hget hname hlast =>
      GetMemoryIndex_name fs loc n j e hget hname hlast⟩,
   ⟨buildModule_globals fs, fun _ _ => rfl,
    fun loc n j e hget hname hlast =>
      GetGlobalIndex_name fs loc n j e hget hname hlast⟩,
   ⟨buildModule_excepts fs, fun _ _ => rfl,
    fun loc n j e hget hname hlast =>
      GetExceptIndex_name fs loc n j e hget hname hlast⟩⟩

/-- Witness for C2 (amended), on a concrete interleaved sequence (a
function "f", a global "x", an imported function "g"): the imported
function is the 1st function appended and its name resolves to 1; the
global "x" is the 0th global and resolves to 0. -/
theorem C2_index_coherence_witness :
    (buildModule demoFields).GetFuncIndex ⟨default, .name "g"⟩ = 1 ∧
    (buildModule demoFields).GetGlobalIndex ⟨default, .name "x"⟩ = 0 := by
  have hfuncs : (appendedFuncs demoFields).length = 2 := rfl
  have hglobals : (appendedGlobals demoFields).length = 1 := rfl
  constructor
  · refine (C2_index_coherence demoFields).1.2.2 default "g" 1
      (sampleFunc "g") rfl rfl ?_
    intro k e' hk hg
    rw [List.getElem?_eq_none (by rw [hfuncs]; omega)] at hg
    exact Option.noConfusion hg
  · refine (C2_index_coherence demoFields).2.2.2.2.1.2.2 default "x" 0
      { name := some "x", type := Ty.i32, mutable_ := false,
        init_expr := none } rfl rfl ?_
    intro k e' hk hg
    rw [List.getElem?_eq_none (by rw [hglobals]; omega)] at hg
    exact Option.noConfusion hg

/-- Claim C8: when a named field is appended whose name already appears
in the matching binding table, the later binding shadows the earlier one
for name lookup (persisting through any further appends that do not
rebind the name), while the earlier declaration keeps its slot in the
cached vector and remains reachable via its explicit index. -/
theorem C8_name_shadowing (fs : List ModuleField) :
    (∀ (loc : Location) (n : String) (i j : Nat) (ei ej : Func),
       i < j → (appendedFuncs fs)[i]? = some ei → ei.name = some n →
       (appendedFuncs fs)[j]? = some ej → ej.name = some n →
       (∀ (k : Nat) (e' : Func), j < k →
         (appendedFuncs fs)[k]? = some e' → e'.name ≠ some n) →
       (buildModule fs).GetFuncIndex ⟨loc, .name n⟩ = j ∧
       (buildModule fs).funcs[i]? = some ei ∧
       (buildModule fs).GetFuncIndex ⟨loc, .index i⟩ = i) ∧
    (∀ (loc : Location) (n : String) (i j : Nat) (ei ej : FuncType),
       i < j → (appendedFuncTypes fs)[i]? = some ei → ei.name = some n →
       (appendedFuncTypes fs)[j]? = some ej → ej.name = some n →
       (∀ (k : Nat) (e' : FuncType), j < k →
         (appendedFuncTypes fs)[k]? = some e' → e'.name ≠ some n) →
       (buildModule fs).GetFuncTypeIndex ⟨loc, .name n⟩ = j ∧
       (buildModule fs).func_types[i]? = some ei ∧
       (buildModule fs).GetFuncTypeIndex ⟨loc, .index i⟩ = i) ∧
    (∀ (loc : Location) (n : String) (i j : Nat) (ei ej : Table),
       i < j → (appendedTables fs)[i]? = some ei → ei.name = some n →
       (appendedTables fs)[j]? = some ej → ej.name = some n →
       (∀ (k : Nat) (e' : Table), j < k →
         (appendedTables fs)[k]? = some e' → e'.name ≠ some n) →
       (buildModule fs).GetTableIndex ⟨loc, .name n⟩ = j ∧
       (buildModule fs).tables[i]? = some ei ∧
       (buildModule fs).GetTableIndex ⟨loc, .index i⟩ = i) ∧
    (∀ (loc : Location) (n : String) (i j : Nat) (ei ej : Memory),
       i < j → (appendedMemories fs)[i]? = some ei → ei.name = some n →
       (appendedMemories fs)[j]? = some ej → ej.name = some n →
       (∀ (k : Nat) (e' : Memory), j < k →
         (appendedMemories fs)[k]? = some e' → e'.name ≠ some n) →
       (buildModule fs).GetMemoryIndex ⟨loc, .name n⟩ = j ∧
       (buildModule fs).memories[i]? = some ei ∧
       (buildModule fs).GetMemoryIndex ⟨loc, .index i⟩ = i) ∧
    (∀ (loc : Location) (n : String) (i j : Nat) (ei ej : Global),
       i < j → (appendedGlobals fs)[i]? = some ei → ei.name = some n →
       (appendedGlobals fs)[j]? = some ej → ej.name = some n →
       (∀ (k : Nat) (e' : Global), j < k →
         (appendedGlobals fs)[k]? = some e' → e'.name ≠ some n) →
       (buildModule fs).GetGlobalIndex ⟨loc, .name n⟩ = j ∧
       (buildModule fs).globals[i]? = some ei ∧
       (buildModule fs).GetGlobalIndex ⟨loc, .index i⟩ = i) ∧
    (∀ (loc : Location) (n : String) (i j : Nat) (ei ej : Exception),
       i < j → (appendedExcepts fs)[i]? = some ei → ei.name = some n →
       (appendedExcepts fs)[j]? = some ej → ej.name = some n →
       (∀ (k : Nat) (e' : Exception), j < k →
         (appendedExcepts fs)[k]? = some e' → e'.name ≠ some n) →
       (buildModule fs).GetExceptIndex ⟨loc, .name n⟩ = j ∧
       (buildModule fs).excepts[i]? = some ei ∧
       (buildModule fs).GetExceptIndex ⟨loc, .index i⟩ = i) :=
  ⟨fun loc n i j ei ej _ hgi _ hgj hnj hlast =>
     ⟨GetFuncIndex_name fs loc n j ej hgj hnj hlast,
      by rw [buildModule_funcs]; exact hgi, rfl⟩,
   fun loc n i j ei ej _ hgi _ hgj hnj hlast =>
     ⟨GetFuncTypeIndex_name fs loc n j ej hgj hnj hlast,
      by rw [buildModule_func_types]; exact hgi, rfl⟩,
   fun loc n i j ei ej _ hgi _ hgj hnj hlast =>
     ⟨GetTableIndex_name fs loc n j ej hgj hnj hlast,
      by rw [buildModule_tables]; exact hgi, rfl⟩,
   fun loc n i j ei ej _ hgi _ hgj hnj hlast =>
     ⟨GetMemoryIndex_name fs loc n j ej hgj hnj hlast,
      by rw [buildModule_memories]; exact hgi, rfl⟩,
   fun loc n i j ei ej _ hgi _ hgj hnj hlast =>
     ⟨GetGlobalIndex_name fs loc n j ej hgj hnj hlast,
      by rw [buildModule_globals]; exact hgi, rfl⟩,
   fun loc n i j ei ej _ hgi _ hgj hnj hlast =>
     ⟨GetExceptIndex_name fs loc n j ej hgj hnj hlast,
      by rw [buildModule_excepts]; exact hgi, rfl⟩⟩

/-- Witness for C8: with two functions both named "f", name lookup
resolves to the later one (index 1) while the earlier one keeps slot 0
of the cache and is reachable by explicit index 0. -/
theorem C8_name_shadowing_witness :
    (buildModule shadowFields).GetFuncIndex ⟨default, .name "f"⟩ = 1 ∧
    (buildModule shadowFields).funcs[0]? = some (sampleFunc "f") ∧
    (buildModule shadowFields).GetFuncIndex ⟨default, .index 0⟩ = 0 := by
  have hlen : (appendedFuncs shadowFields).length = 2 := rfl
  refine (C8_name_shadowing shadowFields).1 default "f" 0 1
    (sampleFunc "f") (sampleFunc "f") (by omega) rfl rfl rfl rfl ?_
  intro k e' hk hg
  rw [List.getElem?_eq_none (by rw [hlen]; omega)] at hg
  exact Option.noConfusion hg

/-- Claim C1: for every sequence of `AppendField` calls on a module,
traversing the module's field list from `first_field` via `next` (the
`fields` list of the model) yields exactly the appended fields, in
exactly the order of the calls, regardless of how field kinds are
interleaved. -/
theorem C1_append_preserves_order (fs : List ModuleField) :
    (buildModule fs).fields = fs := by
  show (fs.foldl Module.AppendField Module.empty).fields = fs
  rw [foldl_AppendField_fields]
  rfl

/-- Claim C5: `FuncSignature` equality is structural — two signatures
compare equal iff their parameter-type sequences and result-type
sequences are element-wise equal (same length, same order, same type per
position), for arbitrary (hence independently constructed) instances;
and signatures that agree on parameters but differ in result arity
compare unequal. -/
theorem C5_signature_equality_structural (s1 s2 : FuncSignature) :
    (FuncSignature.eq s1 s2 = true ↔
      (s1.param_types.length = s2.param_types.length ∧
        (∀ i : Nat, s1.param_types[i]? = s2.param_types[i]?) ∧
        s1.result_types.length = s2.result_types.length ∧
        (∀ i : Nat, s1.result_types[i]? = s2.result_types[i]?))) ∧
    (s1.param_types = s2.param_types →
      s1.result_types.length ≠ s2.result_types.length →
      FuncSignature.eq s1 s2 = false) := by
  constructor
  · rw [FuncSignature.eq_iff]
    constructor
    · rintro ⟨hp, hr⟩
      exact ⟨by rw [hp], fun i => by rw [hp], by rw [hr], fun i => by rw [hr]⟩
    · rintro ⟨hpl, hp, hrl, hr⟩
      exact ⟨List.ext_getElem?_iff.mpr hp, List.ext_getElem?_iff.mpr hr⟩
  · intro hp hrl
    by_contra h
    rw [Bool.not_eq_false, FuncSignature.eq_iff] at h
    exact hrl (by rw [h.2])

/-- Witness for C5 at the spec's own examples: `([i32],[]) != ([i32],[i32])`
and `([i32,i32],[i32]) == ([i32,i32],[i32])` for independently written
instances. -/
theorem C5_signature_equality_structural_witness :
    FuncSignature.eq ⟨[Ty.i32], []⟩ ⟨[Ty.i32], [Ty.i32]⟩ = false ∧
    FuncSignature.eq ⟨[Ty.i32, Ty.i32], [Ty.i32]⟩
      ⟨[Ty.i32, Ty.i32], [Ty.i32]⟩ = true :=
  ⟨(C5_signature_equality_structural ⟨[Ty.i32], []⟩
      ⟨[Ty.i32], [Ty.i32]⟩).2 rfl (by decide),
   (C5_signature_equality_structural ⟨[Ty.i32, Ty.i32], [Ty.i32]⟩
      ⟨[Ty.i32, Ty.i32], [Ty.i32]⟩).1.mpr
     ⟨rfl, fun i => rfl, rfl, fun i => rfl⟩⟩

/-- Claim C6: `Catch.IsCatchAll` returns true iff the catch's `Var` is
index-tagged with value `kInvalidIndex`; a catch whose `Var` holds any
other index, or holds a name, reports false. -/
theorem C6_catch_all_detection (c : Catch) :
    (c.IsCatchAll = true ↔ c.var.kind = .index kInvalidIndex) ∧
    (∀ i : Index, c.var.kind = .index i → i ≠ kInvalidIndex →
      c.IsCatchAll = false) ∧
    (∀ s : String, c.var.kind = .name s → c.IsCatchAll = false) := by
  refine ⟨?_, ?_, ?_⟩
  · cases hk : c.var.kind with
    | index i => simp [CatchG.IsCatchAll, hk]
    | name s => simp [CatchG.IsCatchAll, hk]
  · intro i hk hne
    simp [CatchG.IsCatchAll, hk, hne]
  · intro s hk
    simp [CatchG.IsCatchAll, hk]

/-- Witness for C6: a catch built with an explicitly-invalid index `Var`
reports catch-all; one with a valid index (0) or with a name does not. -/
theorem C6_catch_all_detection_witness :
    CatchG.IsCatchAll
      (⟨default, ⟨default, .index kInvalidIndex⟩, none⟩ : Catch) = true ∧
    CatchG.IsCatchAll (⟨default, ⟨default, .index 0⟩, none⟩ : Catch) = false ∧
    CatchG.IsCatchAll (⟨default, ⟨default, .name "e"⟩, none⟩ : Catch)
      = false :=
  ⟨(C6_catch_all_detection
      (⟨default, ⟨default, .index kInvalidIndex⟩, none⟩ : Catch)).1.mpr rfl,
   (C6_catch_all_detection (⟨default, ⟨default, .index 0⟩, none⟩ : Catch)).2.1
     0 rfl (by decide),
   (C6_catch_all_detection
      (⟨default, ⟨default, .name "e"⟩, none⟩ : Catch)).2.2 "e" rfl⟩

/-- Claim C7: `ScriptModule.GetLocation` dispatches on the tag — a
`Binary`-tagged instance returns the location stored in its binary arm, a
`Quoted`-tagged instance returns the location stored in its quoted arm
(no parsed `Module` is consulted), and a `Text`-tagged instance returns
the wrapped `Module`'s location. -/
theorem C7_script_module_location (loc : Location) (name : Option String)
    (data : List Nat) (m : Module) :
    (ScriptModule.binary loc name data).GetLocation = loc ∧
    (ScriptModule.quoted loc name data).GetLocation = loc ∧
    (ScriptModule.text m).GetLocation = m.loc :=
  ⟨rfl, rfl, rfl⟩

/-- Claim C10: the `FuncDeclaration` accessors read the embedded inline
`FuncSignature` unconditionally — their results depend only on `sig`,
never on `has_func_type` or `type_var`; in particular a declaration that
references a `FuncType` by `Var` (`has_func_type = true`) but whose
inline signature is empty reports zero parameters and zero results. -/
theorem C10_func_decl_reads_inline_sig (b : Bool) (tv : Var)
    (sig : FuncSignature) (i : Index) :
    (FuncDeclaration.mk b tv sig).GetNumParams = sig.param_types.length ∧
    (FuncDeclaration.mk b tv sig).GetNumResults = sig.result_types.length ∧
    (FuncDeclaration.mk b tv sig).GetParamType i = sig.GetParamType i ∧
    (FuncDeclaration.mk b tv sig).GetResultType i = sig.GetResultType i ∧
    (FuncDeclaration.mk true tv ⟨[], []⟩).GetNumParams = 0 ∧
    (FuncDeclaration.mk true tv ⟨[], []⟩).GetNumResults = 0 :=
  ⟨rfl, rfl, rfl, rfl, rfl, rfl⟩

end wabt
